import Mathlib

/-!
Shallow embedding of the scheduling and resilience core of the
`aireer-cli` repository (`src/cli/src/routine-manager.ts`,
`src/cli/src/rate-limit-handler.ts`, `src/cli/src/autonomous-mode.ts`).

Numbers are modelled with `ℚ` (JavaScript numbers used only through
`+ * min max`, floor and comparisons on the inputs relevant here),
timestamps with `ℤ` (milliseconds, as produced by `Date.getTime()`).
Stateful mutation of the persisted priority store is modelled by
explicit state passing over a `List RoutinePriority`.
-/

namespace Aireer

/-- A routine as seen by the scheduler (`routine-manager.ts`, interface
`Routine`).  Only `id` and `name` are inspected by the scheduling core;
`description`, `isActive` and `steps` are opaque to it and omitted. -/
structure Routine where
  id : String
  name : String
  deriving Repr, DecidableEq

/-- Persisted per-routine scheduling state (`routine-manager.ts`,
interface `RoutinePriority`).  `lastExecuted` is an optional timestamp
in milliseconds (the source stores an ISO string and always converts it
back via `new Date(...).getTime()`). -/
structure RoutinePriority where
  routineId : String
  priority : ℚ
  weight : ℚ
  lastExecuted : Option ℤ
  executionCount : ℕ
  successRate : ℚ
  deriving Repr, DecidableEq

/-- Global settings of the priority store (`routine-manager.ts`,
interface `RoutineConfig.globalSettings`).  `cooldownPeriod` and
`minimumInterval` are in seconds. -/
structure GlobalSettings where
  maxExecutionsPerCycle : ℕ
  cooldownPeriod : ℤ
  minimumInterval : ℤ
  deriving Repr, DecidableEq

/-- `this.config.priorities.find(p => p.routineId === id)` — first entry
of the store whose `routineId` matches. -/
def findEntry (ps : List RoutinePriority) (id : String) : Option RoutinePriority :=
  ps.find? (fun p => p.routineId == id)

/-- The default `RoutinePriority` created for a newly seen routine
(`routine-manager.ts`, `updateRoutinePriorities`): priority 5,
weight 1.0, no `lastExecuted`, zero executions, successRate 1.0. -/
def defaultEntry (rid : String) : RoutinePriority :=
  { routineId := rid, priority := 5, weight := 1, lastExecuted := none
    executionCount := 0, successRate := 1 }

/-- First phase of `updateRoutinePriorities`: iterate over the fetched
routines and append a default entry for every routine id that the store
(as grown so far) does not yet contain. -/
def addNewRoutines (ps : List RoutinePriority) (routines : List Routine) :
    List RoutinePriority :=
  routines.foldl
    (fun acc r =>
      if acc.any (fun p => p.routineId == r.id) then acc
      else acc ++ [defaultEntry r.id])
    ps

/-- `RoutineManager.updateRoutinePriorities` (`routine-manager.ts`):
add a default entry for every new routine, then keep only entries whose
id is among the active routine ids. -/
def updateRoutinePriorities (routines : List Routine) (ps : List RoutinePriority) :
    List RoutinePriority :=
  (addNewRoutines ps routines).filter
    (fun p => (routines.map (fun r => r.id)).contains p.routineId)

/-- `RoutineManager.recordExecution` (`routine-manager.ts`): on the first
entry matching `id`, set `lastExecuted := now`, increment
`executionCount` and update `successRate` by the exponential moving
average with α = 0.2; unknown ids are a no-op. -/
def recordExecution (id : String) (success : Bool) (now : ℤ) :
    List RoutinePriority → List RoutinePriority
  | [] => []
  | p :: rest =>
    if p.routineId == id then
      { p with lastExecuted := some now
               executionCount := p.executionCount + 1
               successRate :=
                 (1/5) * (if success then 1 else 0) + (1 - 1/5) * p.successRate } :: rest
    else p :: recordExecution id success now rest

/-- A sequence of `recordExecution` calls applied in order. -/
def runRecord (calls : List (String × Bool × ℤ)) (ps : List RoutinePriority) :
    List RoutinePriority :=
  calls.foldl (fun acc c => recordExecution c.1 c.2.1 c.2.2 acc) ps

/-- `RoutineManager.adjustPriority` (`routine-manager.ts`): clamp the new
priority into [1,10] on the first matching entry and report whether a
matching entry existed. -/
def adjustPriority (id : String) (v : ℚ) :
    List RoutinePriority → Bool × List RoutinePriority
  | [] => (false, [])
  | p :: rest =>
    if p.routineId == id then
      (true, { p with priority := max 1 (min 10 v) } :: rest)
    else
      let r := adjustPriority id v rest
      (r.1, p :: r.2)

/-- `RoutineManager.adjustWeight` (`routine-manager.ts`): clamp the new
weight into [0.1,5.0] on the first matching entry and report whether a
matching entry existed. -/
def adjustWeight (id : String) (v : ℚ) :
    List RoutinePriority → Bool × List RoutinePriority
  | [] => (false, [])
  | p :: rest =>
    if p.routineId == id then
      (true, { p with weight := max (1/10) (min 5 v) } :: rest)
    else
      let r := adjustWeight id v rest
      (r.1, p :: r.2)

/-- The cooldown filter predicate of `RoutineManager.selectRoutineToExecute`
(`routine-manager.ts`): a routine is kept when it has no priority entry,
its entry has no `lastExecuted`, or strictly more than
`cooldownPeriod * 1000` milliseconds have elapsed since `lastExecuted`. -/
def eligibleForExecution (cfg : GlobalSettings) (ps : List RoutinePriority)
    (currentTime : ℤ) (r : Routine) : Bool :=
  match findEntry ps r.id with
  | none => true
  | some p =>
    match p.lastExecuted with
    | none => true
    | some t => decide (currentTime - t > cfg.cooldownPeriod * 1000)

/-- The per-entry selection weight of `selectRoutineToExecute`:
`priority * weight * successRate`, multiplied (when `lastExecuted`
exists) by the recency boost `min (1 + hoursSince * 0.1) 3`, and finally
floored at the minimum weight 0.1. -/
def computeWeightEntry (p : RoutinePriority) (currentTime : ℤ) : ℚ :=
  let w0 := p.priority * p.weight * p.successRate
  let w1 :=
    match p.lastExecuted with
    | none => w0
    | some t => w0 * min (1 + (((currentTime - t : ℤ) : ℚ) / 3600000) * (1/10)) 3
  max w1 (1/10)

/-- The selection weight of a routine: entries missing from the store get
weight 1, otherwise `computeWeightEntry`. -/
def routineWeight (ps : List RoutinePriority) (currentTime : ℤ) (r : Routine) : ℚ :=
  match findEntry ps r.id with
  | none => 1
  | some p => computeWeightEntry p currentTime

/-- The cumulative-weight walk of the weighted draw: return the first
routine whose cumulative weight reaches the drawn value `rand`, or `none`
when the walk falls off the end of the list. -/
def pickLoop (rand : ℚ) : ℚ → List (Routine × ℚ) → Option Routine
  | _, [] => none
  | acc, (r, w) :: rest =>
    if rand ≤ acc + w then some r else pickLoop rand (acc + w) rest

/-- `RoutineManager.selectRoutineToExecute` (`routine-manager.ts`),
parametrised by the current time (milliseconds) and the drawn random
value `rand` (the source draws `Math.random() * totalWeight`): filter by
cooldown, return `none` on an empty filtered set, otherwise run the
weighted walk with fallback to the last available routine. -/
def selectRoutineToExecute (cfg : GlobalSettings) (ps : List RoutinePriority)
    (currentTime : ℤ) (rand : ℚ) (routines : List Routine) : Option Routine :=
  let available := routines.filter (eligibleForExecution cfg ps currentTime)
  if available.isEmpty then none
  else
    match pickLoop rand 0 (available.map (fun r => (r, routineWeight ps currentTime r))) with
    | some r => some r
    | none => available.getLast?

/-- `needle` is a prefix of the character list (Boolean, structural). -/
def startsWithChars : List Char → List Char → Bool
  | [], _ => true
  | _ :: _, [] => false
  | a :: as, b :: bs => a == b && startsWithChars as bs

/-- JavaScript `haystack.includes(needle)` on character lists. -/
def hasSubChars (needle : List Char) : List Char → Bool
  | [] => needle.isEmpty
  | b :: bs => startsWithChars needle (b :: bs) || hasSubChars needle bs

/-- The shape of a thrown failure as inspected by the rate-limit handler
and the orchestrator's catch block: HTTP status, numeric error code, the
`response.data.error` marker, the `response.data.retryAfter` hint
(seconds) and the human-readable message. -/
structure ApiError where
  status : Option ℕ
  code : Option ℕ
  responseError : Option String
  retryAfter : Option ℚ
  message : Option String
  deriving Repr, DecidableEq

/-- `RateLimitHandler.isRateLimitError` (`rate-limit-handler.ts`):
status/code 429, a `RATE_LIMIT_EXCEEDED` marker, or a lower-cased
message containing one of the four throttling substrings. -/
def isRateLimitError (e : ApiError) : Bool :=
  e.status == some 429 || e.code == some 429 ||
  e.responseError == some "RATE_LIMIT_EXCEEDED" ||
  (let m := (e.message.getD "").data.map Char.toLower
   hasSubChars "rate limit".data m || hasSubChars "quota exceeded".data m ||
   hasSubChars "too many requests".data m || hasSubChars "429".data m)

/-- Retry configuration (`rate-limit-handler.ts`, interface
`RetryOptions`). -/
structure RetryOptions where
  maxRetries : ℕ
  baseDelay : ℚ
  maxDelay : ℚ
  backoffMultiplier : ℚ
  deriving Repr, DecidableEq

/-- `RateLimitHandler.defaultOptions`. -/
def defaultRetryOptions : RetryOptions :=
  { maxRetries := 3, baseDelay := 1000, maxDelay := 60000, backoffMultiplier := 2 }

/-- `RateLimitHandler.calculateDelay` (`rate-limit-handler.ts`),
parametrised by the drawn `Math.random()` value `rand`: the effective
base is the service `retryAfter` hint (in ms) floored at the configured
base when present; the delay is the exponential term plus a jitter of
`rand * 0.1` times that term, capped at `maxDelay`. -/
def calculateDelay (attempt : ℕ) (cfg : RetryOptions) (e : ApiError) (rand : ℚ) : ℚ :=
  let base :=
    match e.retryAfter with
    | none => cfg.baseDelay
    | some ra => max (ra * 1000) cfg.baseDelay
  let expDelay := base * cfg.backoffMultiplier ^ attempt
  let jitter := rand * (1/10) * expDelay
  min (expDelay + jitter) cfg.maxDelay

/-- The retry loop of `RateLimitHandler.executeWithRetry`, recursing on
the number of retries still available; the operation is modelled as a
map from invocation index (the source's `attempt`) to its outcome, and
the result is paired with the number of invocations made. -/
def retryFromAux {α : Type} (op : ℕ → Except ApiError α) (attempt : ℕ) :
    ℕ → Except ApiError α × ℕ
  | 0 =>
    (match op attempt with
     | .ok v => (.ok v, 1)
     | .error e => (.error e, 1))
  | n + 1 =>
    (match op attempt with
     | .ok v => (.ok v, 1)
     | .error e =>
       if isRateLimitError e then
         let r := retryFromAux op (attempt + 1) n
         (r.1, r.2 + 1)
       else (.error e, 1))

/-- `RateLimitHandler.executeWithRetry` (`rate-limit-handler.ts`):
attempts run from 0 through `maxRetries`; a success returns immediately,
a failure that is not rate-limit-shaped is rethrown immediately, a
rate-limit-shaped failure on the last attempt is rethrown, otherwise the
loop retries.  The second component counts invocations of `op`. -/
def executeWithRetry {α : Type} (op : ℕ → Except ApiError α) (maxRetries : ℕ) :
    Except ApiError α × ℕ :=
  retryFromAux op 0 maxRetries

/-- `RateLimitHandler.suggestOptimalInterval` (`rate-limit-handler.ts`):
zero errors leave the interval unchanged; otherwise the interval is
multiplied by `min (2 + errorCount * 0.5) 5` and floored. -/
def suggestOptimalInterval (errorCount : ℕ) (currentInterval : ℚ) : ℚ :=
  if errorCount = 0 then currentInterval
  else ((⌊currentInterval * min (2 + (errorCount : ℚ) * (1/2)) 5⌋ : ℤ) : ℚ)

/-- Transient per-run state of the orchestrator loop
(`autonomous-mode.ts`, `startAutonomousMode`): the consecutive
rate-limit-error counter and the current adaptive interval (seconds). -/
structure CycleState where
  rateLimitErrorCount : ℕ
  adaptiveInterval : ℚ
  deriving Repr, DecidableEq

/-- What one cycle of the orchestrator loop observed: the routine fetch
returned an empty list; the cycle body ran to completion without
throwing; or the cycle body threw `e`. -/
inductive CycleEvent where
  | fetchEmpty : CycleEvent
  | dispatched : CycleEvent
  | failure : ApiError → CycleEvent
  deriving Repr, DecidableEq

/-- The orchestrator catch-block classifier (`autonomous-mode.ts`):
`error.response?.data?.error === 'RATE_LIMIT_EXCEEDED' ||
error.status === 429 || error.message?.includes('rate limit')`
(case-sensitive, unlike the handler's classifier). -/
def cycleIsRateLimit (e : ApiError) : Bool :=
  e.responseError == some "RATE_LIMIT_EXCEEDED" || e.status == some 429 ||
  hasSubChars "rate limit".data (e.message.getD "").data

/-- One cycle of the `while` loop of `startAutonomousMode`
(`autonomous-mode.ts`), restricted to the cycle-state variables: returns
the new state and the number of seconds slept at the end of the cycle.
An empty fetch sleeps `options.interval` and `continue`s; a completed
cycle resets the counter and the adaptive interval to the configured
value and sleeps it; a rate-limit-classified failure increments the
counter, recomputes the adaptive interval and sleeps it; any other
failure sleeps the current adaptive interval unchanged. -/
def cycleStep (configuredInterval : ℚ) (s : CycleState) :
    CycleEvent → CycleState × ℚ
  | .fetchEmpty => (s, configuredInterval)
  | .dispatched =>
    ({ rateLimitErrorCount := 0, adaptiveInterval := configuredInterval },
     configuredInterval)
  | .failure e =>
    if cycleIsRateLimit e then
      let n := s.rateLimitErrorCount + 1
      let ai := suggestOptimalInterval n s.adaptiveInterval
      ({ rateLimitErrorCount := n, adaptiveInterval := ai }, ai)
    else (s, s.adaptiveInterval)

/-- The provisional-then-real outcome recording of one dispatched
routine (`autonomous-mode.ts`): `recordExecution(id, true)` at selection
time (to make the routine ineligible within the same batch) followed by
`recordExecution(id, success)` in the `finally` block of
`executeRoutine`. -/
def dispatchOutcome (id : String) (success : Bool) (tSelect tDone : ℤ)
    (ps : List RoutinePriority) : List RoutinePriority :=
  recordExecution id success tDone (recordExecution id true tSelect ps)

/-- Modelled from the claim under examination (not from the source): the
selection weight with the 0.1 floor applied to
`priority · weight · successRate` *before* the recency boost. -/
def claimedWeightEntry (p : RoutinePriority) (currentTime : ℤ) : ℚ :=
  let w0 := max (p.priority * p.weight * p.successRate) (1/10)
  match p.lastExecuted with
  | none => w0
  | some t => w0 * min (1 + (((currentTime - t : ℤ) : ℚ) / 3600000) * (1/10)) 3

/-! ### Helper lemmas (shared) -/

theorem adjustPriority_found (id : String) (v : ℚ) :
    ∀ ps : List RoutinePriority,
      (adjustPriority id v ps).1 = ps.any (fun p => p.routineId == id)
  | [] => rfl
  | p :: rest => by
    by_cases h : p.routineId == id
    · simp [adjustPriority, h]
    · simp [adjustPriority, h, adjustPriority_found id v rest]

theorem adjustWeight_found (id : String) (v : ℚ) :
    ∀ ps : List RoutinePriority,
      (adjustWeight id v ps).1 = ps.any (fun p => p.routineId == id)
  | [] => rfl
  | p :: rest => by
    by_cases h : p.routineId == id
    · simp [adjustWeight, h]
    · simp [adjustWeight, h, adjustWeight_found id v rest]

theorem adjustPriority_not_found (id : String) (v : ℚ) :
    ∀ ps : List RoutinePriority,
      (adjustPriority id v ps).1 = false → (adjustPriority id v ps).2 = ps
  | [] => by intro; rfl
  | p :: rest => by
    by_cases h : p.routineId == id
    · simp [adjustPriority, h]
    · simp only [adjustPriority, h, if_neg, Bool.false_eq_true, ite_false]
      intro hfst
      simp [adjustPriority_not_found id v rest hfst]

theorem adjustWeight_not_found (id : String) (v : ℚ) :
    ∀ ps : List RoutinePriority,
      (adjustWeight id v ps).1 = false → (adjustWeight id v ps).2 = ps
  | [] => by intro; rfl
  | p :: rest => by
    by_cases h : p.routineId == id
    · simp [adjustWeight, h]
    · simp only [adjustWeight, h, Bool.false_eq_true, ite_false]
      intro hfst
      simp [adjustWeight_not_found id v rest hfst]

theorem adjustPriority_mem (id : String) (v : ℚ) :
    ∀ ps : List RoutinePriority, ∀ q ∈ (adjustPriority id v ps).2,
      q ∈ ps ∨ q.priority = max 1 (min 10 v)
  | [] => by intro q hq; exact absurd hq (by simp [adjustPriority])
  | p :: rest => by
    intro q hq
    by_cases h : p.routineId == id
    · simp only [adjustPriority, h, ite_true, List.mem_cons] at hq
      rcases hq with hq | hq
      · right; rw [hq]
      · left; exact List.mem_cons_of_mem _ hq
    · simp only [adjustPriority, h, Bool.false_eq_true, ite_false, List.mem_cons] at hq
      rcases hq with hq | hq
      · left; rw [hq]; exact List.mem_cons_self _ _
      · rcases adjustPriority_mem id v rest q hq with h' | h'
        · exact Or.inl (List.mem_cons_of_mem _ h')
        · exact Or.inr h'

theorem adjustWeight_mem (id : String) (v : ℚ) :
    ∀ ps : List RoutinePriority, ∀ q ∈ (adjustWeight id v ps).2,
      q ∈ ps ∨ q.weight = max (1/10) (min 5 v)
  | [] => by intro q hq; exact absurd hq (by simp [adjustWeight])
  | p :: rest => by
    intro q hq
    by_cases h : p.routineId == id
    · simp only [adjustWeight, h, ite_true, List.mem_cons] at hq
      rcases hq with hq | hq
      · right; rw [hq]
      · left; exact List.mem_cons_of_mem _ hq
    · simp only [adjustWeight, h, Bool.false_eq_true, ite_false, List.mem_cons] at hq
      rcases hq with hq | hq
      · left; rw [hq]; exact List.mem_cons_self _ _
      · rcases adjustWeight_mem id v rest q hq with h' | h'
        · exact Or.inl (List.mem_cons_of_mem _ h')
        · exact Or.inr h'

/-! ### Claim theorems -/

/-- C7: `suggestOptimalInterval` returns the interval unchanged when the
error count is zero, and otherwise returns the floor of the interval
times `min (2 + 0.5 · errorCount) 5`; in particular
`suggestOptimalInterval 3 60 = 210`. -/
theorem suggestOptimalInterval_spec :
    (∀ ci : ℚ, suggestOptimalInterval 0 ci = ci) ∧
    (∀ (ec : ℕ) (ci : ℚ),
      suggestOptimalInterval (ec + 1) ci =
        ((⌊ci * min (2 + ((ec + 1 : ℕ) : ℚ) * (1/2)) 5⌋ : ℤ) : ℚ)) ∧
    suggestOptimalInterval 3 60 = 210 := by
  refine ⟨fun ci => rfl, fun ec ci => rfl, ?_⟩
  show ((⌊(60 : ℚ) * min (2 + (3 : ℚ) * (1/2)) 5⌋ : ℤ) : ℚ) = 210
  norm_num [min_def]

/-- C8: `adjustPriority` / `adjustWeight` report whether the id exists;
on a missing id the store is unchanged; every entry of the result is
either an original entry or carries the clamped value (within [1,10]
resp. [0.1,5]); `adjustPriority` of 15 on an existing entry stores 10,
and on a missing id returns false with no mutation. -/
theorem adjust_clamp_spec :
    (∀ (id : String) (v : ℚ) (ps : List RoutinePriority),
      ((adjustPriority id v ps).1 = ps.any (fun p => p.routineId == id)) ∧
      ((adjustWeight id v ps).1 = ps.any (fun p => p.routineId == id)) ∧
      ((adjustPriority id v ps).1 = false → (adjustPriority id v ps).2 = ps) ∧
      ((adjustWeight id v ps).1 = false → (adjustWeight id v ps).2 = ps) ∧
      (∀ q ∈ (adjustPriority id v ps).2,
        q ∈ ps ∨ (q.priority = max 1 (min 10 v) ∧ 1 ≤ q.priority ∧ q.priority ≤ 10)) ∧
      (∀ q ∈ (adjustWeight id v ps).2,
        q ∈ ps ∨ (q.weight = max (1/10) (min 5 v) ∧ 1/10 ≤ q.weight ∧ q.weight ≤ 5))) ∧
    adjustPriority "x" 15 [defaultEntry "x"] =
      (true, [{ defaultEntry "x" with priority := 10 }]) ∧
    adjustPriority "missing" 5 [defaultEntry "x"] = (false, [defaultEntry "x"]) := by
  refine ⟨fun id v ps => ?_, ?_, ?_⟩
  · refine ⟨adjustPriority_found id v ps, adjustWeight_found id v ps,
      adjustPriority_not_found id v ps, adjustWeight_not_found id v ps, ?_, ?_⟩
    · intro q hq
      rcases adjustPriority_mem id v ps q hq with h | h
      · exact Or.inl h
      · refine Or.inr ⟨h, ?_, ?_⟩
        · rw [h]; exact le_max_left _ _
        · rw [h]
          exact max_le (by norm_num) (le_trans (min_le_left _ _) (by norm_num))
    · intro q hq
      rcases adjustWeight_mem id v ps q hq with h | h
      · exact Or.inl h
      · refine Or.inr ⟨h, ?_, ?_⟩
        · rw [h]; exact le_max_left _ _
        · rw [h]
          exact max_le (by norm_num) (le_trans (min_le_left _ _) (by norm_num))
  · show (true, [{ defaultEntry "x" with priority := max 1 (min 10 15) }]) =
      (true, [{ defaultEntry "x" with priority := 10 }])
    norm_num [min_def, max_def]
  · rfl

/-- Witness for C8's theorem: at a concrete store, the exists-check, the
no-mutation-on-miss consequence and the clamp bound all evaluate. -/
theorem adjust_clamp_spec_witness :
    (adjustPriority "missing" 5 [defaultEntry "x"]).2 = [defaultEntry "x"] :=
  (adjust_clamp_spec.1 "missing" 5 [defaultEntry "x"]).2.2.1 (by rfl)

/-- C2 counterexample: for an eligible entry with
priority 1, weight 0.1, successRate 0.5 (all within their clamps) last
executed 20 hours before the current time, the weight computed by the
code (floor applied after the recency boost, giving 0.15) differs from
the claimed weight (floor applied before the boost, giving 0.3). -/
theorem computeWeight_floor_order_cex :
    computeWeightEntry
        { routineId := "a", priority := 1, weight := 1/10, lastExecuted := some 0
          executionCount := 0, successRate := 1/2 } 72000000 ≠
      claimedWeightEntry
        { routineId := "a", priority := 1, weight := 1/10, lastExecuted := some 0
          executionCount := 0, successRate := 1/2 } 72000000 := by
  show max ((1 : ℚ) * (1/10) * (1/2) *
      min (1 + (((72000000 : ℤ) - 0 : ℤ) : ℚ) / 3600000 * (1/10)) 3) (1/10) ≠
    max ((1 : ℚ) * (1/10) * (1/2)) (1/10) *
      min (1 + (((72000000 : ℤ) - 0 : ℤ) : ℚ) / 3600000 * (1/10)) 3
  norm_num [min_def, max_def]

/-- C2 amended: the selection weight equals
priority · weight · successRate times the recency boost
(`min (1 + hoursSince·0.1) 3` when `lastExecuted` exists, 1 otherwise),
with the 0.1 floor applied *after* the boost, to the final product. -/
theorem computeWeight_amended :
    ∀ (p : RoutinePriority) (t : ℤ),
      computeWeightEntry p t =
        max (p.priority * p.weight * p.successRate *
          (match p.lastExecuted with
           | none => 1
           | some te => min (1 + (((t - te : ℤ) : ℚ) / 3600000) * (1/10)) 3)) (1/10) := by
  intro p t
  cases h : p.lastExecuted with
  | none => simp [computeWeightEntry, h]
  | some te => simp [computeWeightEntry, h]

/-- C3 counterexample: a cycle whose fetch returns the empty list — a
cycle completing without any rate-limit-classified failure — does not
reset the state: starting from counter 2 and adaptive interval 210 with
configured interval 60, the counter stays 2 and the interval stays 210. -/
theorem cycleStep_fetchEmpty_cex :
    ¬ ((cycleStep 60 ⟨2, 210⟩ CycleEvent.fetchEmpty).1.rateLimitErrorCount = 0 ∧
       (cycleStep 60 ⟨2, 210⟩ CycleEvent.fetchEmpty).1.adaptiveInterval = 60) := by
  intro h
  exact absurd h.1 (by norm_num [cycleStep])

/-- C3 amended: the counter/interval reset to zero and the configured
default happens exactly on cycles that fetch a non-empty routine list
and complete without a thrown failure; a cycle with an empty fetch
result sleeps for the unmodified configured interval but leaves the
counter and the adaptive interval unchanged, and a cycle failing with a
non-rate-limit-classified error also leaves them unchanged. -/
theorem cycleStep_reset_amended :
    ∀ (cfgInterval : ℚ) (s : CycleState),
      (cycleStep cfgInterval s CycleEvent.dispatched =
        ({ rateLimitErrorCount := 0, adaptiveInterval := cfgInterval }, cfgInterval)) ∧
      (cycleStep cfgInterval s CycleEvent.fetchEmpty = (s, cfgInterval)) ∧
      (∀ e : ApiError, cycleIsRateLimit e = false →
        cycleStep cfgInterval s (CycleEvent.failure e) = (s, s.adaptiveInterval)) := by
  intro cfgInterval s
  refine ⟨rfl, rfl, fun e he => ?_⟩
  simp [cycleStep, he]

/-- Witness for C3's amended theorem: a non-rate-limit failure with an
empty error shape leaves a concrete state untouched. -/
theorem cycleStep_reset_amended_witness :
    cycleStep 60 ⟨2, 210⟩ (CycleEvent.failure ⟨none, none, none, none, none⟩) =
      (⟨2, 210⟩, 210) :=
  (cycleStep_reset_amended 60 ⟨2, 210⟩).2.2 ⟨none, none, none, none, none⟩ (by rfl)

theorem findEntry_recordExecution (id : String) (succ : Bool) (now : ℤ) :
    ∀ (ps : List RoutinePriority) (p : RoutinePriority),
      findEntry ps id = some p →
      findEntry (recordExecution id succ now ps) id =
        some { p with lastExecuted := some now
                      executionCount := p.executionCount + 1
                      successRate :=
                        (1/5) * (if succ then 1 else 0) + (1 - 1/5) * p.successRate }
  | [], p => by intro h; exact absurd h (by simp [findEntry])
  | q :: rest, p => by
    intro h
    by_cases hq : q.routineId == id
    · have hp : p = q := by
        have := List.find?_cons_of_pos (p := fun p => p.routineId == id) rest hq
        rw [findEntry, this, Option.some_inj] at h
        exact h.symm
      subst hp
      simp only [recordExecution, hq, ite_true, findEntry]
      exact List.find?_cons_of_pos _ hq
    · have hrest : findEntry rest id = some p := by
        have := List.find?_cons_of_neg (p := fun p => p.routineId == id) rest hq
        rw [findEntry, this] at h
        exact h
      simp only [recordExecution, hq, Bool.false_eq_true, ite_false, findEntry]
      rw [List.find?_cons_of_neg (p := fun r => r.routineId == id)
        (recordExecution id succ now rest) hq]
      exact findEntry_recordExecution id succ now rest p hrest

theorem recordExecution_bounds (id : String) (succ : Bool) (now : ℤ) :
    ∀ ps : List RoutinePriority,
      (∀ p ∈ ps, 0 ≤ p.successRate ∧ p.successRate ≤ 1) →
      ∀ q ∈ recordExecution id succ now ps, 0 ≤ q.successRate ∧ q.successRate ≤ 1
  | [] => by intro _ q hq; exact absurd hq (by simp [recordExecution])
  | p :: rest => by
    intro hps q hq
    have hhead := hps p (List.mem_cons_self _ _)
    have hrest : ∀ r ∈ rest, 0 ≤ r.successRate ∧ r.successRate ≤ 1 :=
      fun r hr => hps r (List.mem_cons_of_mem _ hr)
    by_cases hid : p.routineId == id
    · simp only [recordExecution, hid, ite_true, List.mem_cons] at hq
      rcases hq with hq | hq
      · rw [hq]
        have hb : (0 : ℚ) ≤ (if succ then (1 : ℚ) else 0) ∧
            (if succ then (1 : ℚ) else 0) ≤ 1 := by cases succ <;> norm_num
        constructor
        · simp only
          nlinarith [hhead.1, hhead.2, hb.1, hb.2]
        · simp only
          nlinarith [hhead.1, hhead.2, hb.1, hb.2]
      · exact hrest q hq
    · simp only [recordExecution, hid, Bool.false_eq_true, ite_false,
        List.mem_cons] at hq
      rcases hq with hq | hq
      · rw [hq]; exact hhead
      · exact recordExecution_bounds id succ now rest hrest q hq

theorem runRecord_bounds :
    ∀ (calls : List (String × Bool × ℤ)) (ps : List RoutinePriority),
      (∀ p ∈ ps, 0 ≤ p.successRate ∧ p.successRate ≤ 1) →
      ∀ q ∈ runRecord calls ps, 0 ≤ q.successRate ∧ q.successRate ≤ 1
  | [], ps => by intro hps q hq; exact hps q hq
  | c :: cs, ps => by
    intro hps q hq
    have hstep := recordExecution_bounds c.1 c.2.1 c.2.2 ps hps
    exact runRecord_bounds cs (recordExecution c.1 c.2.1 c.2.2 ps) hstep q hq

/-- C4: a `recordExecution` call on a known routine id updates the first
matching entry's `successRate` to exactly
`0.2·(1 if success else 0) + 0.8·(previous successRate)` (also stamping
`lastExecuted` and incrementing `executionCount`); under any sequence of
calls every entry's `successRate` stays within [0,1]; and a fresh entry
starts at successRate 1. -/
theorem recordExecution_ema_spec :
    (∀ (id : String) (succ : Bool) (now : ℤ)
        (ps : List RoutinePriority) (p : RoutinePriority),
      findEntry ps id = some p →
      findEntry (recordExecution id succ now ps) id =
        some { p with lastExecuted := some now
                      executionCount := p.executionCount + 1
                      successRate :=
                        (1/5) * (if succ then 1 else 0) + (1 - 1/5) * p.successRate }) ∧
    (∀ (calls : List (String × Bool × ℤ)) (ps : List RoutinePriority),
      (∀ p ∈ ps, 0 ≤ p.successRate ∧ p.successRate ≤ 1) →
      ∀ q ∈ runRecord calls ps, 0 ≤ q.successRate ∧ q.successRate ≤ 1) ∧
    (∀ rid : String, (defaultEntry rid).successRate = 1) :=
  ⟨findEntry_recordExecution, runRecord_bounds, fun _ => rfl⟩

/-- Witness for C4's theorem: one failed outcome on a fresh entry yields
successRate 0.8, inside [0,1]. -/
theorem recordExecution_ema_spec_witness :
    findEntry (recordExecution "a" false 5 [defaultEntry "a"]) "a" =
      some { routineId := "a", priority := 5, weight := 1, lastExecuted := some 5
             executionCount := 1, successRate := (1/5) * 0 + (1 - 1/5) * 1 } :=
  recordExecution_ema_spec.1 "a" false 5 [defaultEntry "a"] (defaultEntry "a") (by rfl)

/-- C10: a dispatched routine gets two `recordExecution` calls — a
provisional success at selection time, then the real outcome — so its
`executionCount` rises by exactly 2 and its `successRate` undergoes two
EMA steps; a dispatch that ultimately fails with prior rate `s` ends at
`0.8·(0.2 + 0.8·s)`. -/
theorem dispatchOutcome_spec :
    ∀ (id : String) (success : Bool) (tSel tDone : ℤ)
      (ps : List RoutinePriority) (p : RoutinePriority),
      findEntry ps id = some p →
      (findEntry (dispatchOutcome id success tSel tDone ps) id =
        some { p with lastExecuted := some tDone
                      executionCount := p.executionCount + 2
                      successRate :=
                        (1/5) * (if success then 1 else 0) +
                          (1 - 1/5) * ((1/5) * 1 + (1 - 1/5) * p.successRate) }) ∧
      (success = false →
        findEntry (dispatchOutcome id success tSel tDone ps) id =
          some { p with lastExecuted := some tDone
                        executionCount := p.executionCount + 2
                        successRate :=
                          (1 - 1/5) * ((1/5) + (1 - 1/5) * p.successRate) }) := by
  intro id success tSel tDone ps p h
  have h₁ := findEntry_recordExecution id true tSel ps p h
  have h₂ := findEntry_recordExecution id success tDone
    (recordExecution id true tSel ps)
    { p with lastExecuted := some tSel
             executionCount := p.executionCount + 1
             successRate := (1/5) * (if true then 1 else 0) + (1 - 1/5) * p.successRate }
    h₁
  refine ⟨h₂, fun hs => ?_⟩
  subst hs
  rw [show ((1 : ℚ) - 1/5) * ((1/5) + (1 - 1/5) * p.successRate) =
      (1/5) * (if (false : Bool) then 1 else 0) +
        (1 - 1/5) * ((1/5) * 1 + (1 - 1/5) * p.successRate) by norm_num]
  exact h₂

/-- Witness for C10's theorem: a failed dispatch of a fresh entry ends
with `executionCount` 2 and `successRate` 0.8·(0.2 + 0.8·1) = 0.8. -/
theorem dispatchOutcome_spec_witness :
    findEntry (dispatchOutcome "a" false 1 2 [defaultEntry "a"]) "a" =
      some { routineId := "a", priority := 5, weight := 1, lastExecuted := some 2
             executionCount := 2
             successRate := (1 - 1/5) * ((1/5) + (1 - 1/5) * 1) } :=
  (dispatchOutcome_spec "a" false 1 2 [defaultEntry "a"] (defaultEntry "a") (by rfl)).2 rfl

theorem retryFromAux_allRL {α : Type} (op : ℕ → Except ApiError α) (f : ℕ → ApiError)
    (hop : ∀ i, op i = .error (f i)) (hRL : ∀ i, isRateLimitError (f i) = true) :
    ∀ (n a : ℕ), retryFromAux op a n = (.error (f (a + n)), n + 1)
  | 0, a => by simp [retryFromAux, hop a]
  | n + 1, a => by
    have hr := retryFromAux_allRL op f hop hRL n (a + 1)
    rw [show a + (n + 1) = (a + 1) + n from by omega]
    simp [retryFromAux, hop a, hRL a, hr]

theorem retryFromAux_success {α : Type} (op : ℕ → Except ApiError α) (v : α) :
    ∀ (k n a : ℕ), k ≤ n →
      (∀ j, j < k → ∃ e, op (a + j) = .error e ∧ isRateLimitError e = true) →
      op (a + k) = .ok v →
      retryFromAux op a n = (.ok v, k + 1)
  | 0, n, a, _, _, hk => by
    have ha : op a = .ok v := by simpa using hk
    cases n with
    | zero => simp [retryFromAux, ha]
    | succ m => simp [retryFromAux, ha]
  | k + 1, n, a, hkn, hpre, hk => by
    cases n with
    | zero => exact absurd hkn (by omega)
    | succ m =>
      obtain ⟨e, he, heRL⟩ := hpre 0 (by omega)
      have ha : op a = .error e := by simpa using he
      have ih := retryFromAux_success op v k m (a + 1) (by omega)
        (fun j hj => by
          obtain ⟨e', he', hrl'⟩ := hpre (j + 1) (by omega)
          exact ⟨e', by rw [show a + 1 + j = a + (j + 1) from by omega]; exact he', hrl'⟩)
        (by rw [show a + 1 + k = a + (k + 1) from by omega]; exact hk)
      simp [retryFromAux, ha, heRL, ih]

theorem executeWithRetry_nonRL {α : Type} (op : ℕ → Except ApiError α) (e : ApiError)
    (h0 : op 0 = .error e) (hn : isRateLimitError e = false) :
    ∀ m, executeWithRetry op m = (.error e, 1)
  | 0 => by simp [executeWithRetry, retryFromAux, h0]
  | _ + 1 => by simp [executeWithRetry, retryFromAux, h0, hn]

/-- C5: when every invocation fails non-rate-limit-shaped, the operation
runs exactly once and the failure is rethrown; when every invocation
fails rate-limit-shaped, it runs exactly `maxRetries + 1` times and the
last failure is rethrown; a successful invocation returns its result
immediately. -/
theorem executeWithRetry_spec :
    ∀ (α : Type) (op : ℕ → Except ApiError α) (m : ℕ),
      (∀ f : ℕ → ApiError, (∀ i, op i = .error (f i)) →
        (∀ i, isRateLimitError (f i) = false) →
        executeWithRetry op m = (.error (f 0), 1)) ∧
      (∀ f : ℕ → ApiError, (∀ i, op i = .error (f i)) →
        (∀ i, isRateLimitError (f i) = true) →
        executeWithRetry op m = (.error (f m), m + 1)) ∧
      (∀ (k : ℕ) (v : α), k ≤ m →
        (∀ j, j < k → ∃ e, op j = .error e ∧ isRateLimitError e = true) →
        op k = .ok v →
        executeWithRetry op m = (.ok v, k + 1)) := by
  intro α op m
  refine ⟨fun f hop hn => executeWithRetry_nonRL op (f 0) (hop 0) (hn 0) m,
    fun f hop hrl => ?_, fun k v hkm hpre hk => ?_⟩
  · have h := retryFromAux_allRL op f hop hrl m 0
    simpa [executeWithRetry] using h
  · exact retryFromAux_success op v k m 0 hkm
      (fun j hj => by simpa using hpre j hj) (by simpa using hk)

/-- Witness for C5's theorem: an operation that always throws a plain
(non-rate-limit) failure is invoked exactly once. -/
theorem executeWithRetry_spec_witness :
    executeWithRetry
        (fun _ => (Except.error ⟨none, none, none, none, some "boom"⟩ :
          Except ApiError ℕ)) 3 =
      (Except.error ⟨none, none, none, none, some "boom"⟩, 1) :=
  (executeWithRetry_spec ℕ _ 3).1 (fun _ => ⟨none, none, none, none, some "boom"⟩)
    (fun _ => rfl) (fun _ => rfl)

/-- C6 counterexample: with baseDelay 1000, maxDelay 60000 and
backoffMultiplier 1.05, jitter draws 0.99 for attempt 0 and 0.01 for
attempt 1 (both within the ≤10% bound) give delays 1099 and 1050.105:
the delay strictly decreases between consecutive attempts, so the
non-decreasing part of the claim fails for a fixed but arbitrary
multiplier. -/
theorem calculateDelay_monotone_cex :
    ¬ (calculateDelay 0 ⟨3, 1000, 60000, 21/20⟩ ⟨none, none, none, none, none⟩ (99/100) ≤
       calculateDelay 1 ⟨3, 1000, 60000, 21/20⟩ ⟨none, none, none, none, none⟩ (1/100)) := by
  simp only [calculateDelay]
  norm_num [min_def]

theorem delayMono_aux (b m M : ℚ) (hb0 : 0 ≤ b) (hm : 11/10 ≤ m)
    (a₁ a₂ : ℕ) (r₁ r₂ : ℚ) (ha : a₁ < a₂)
    (hr₁1 : r₁ ≤ 1) (hr₂0 : 0 ≤ r₂) :
    min (b * m ^ a₁ + r₁ * (1/10) * (b * m ^ a₁)) M ≤
      min (b * m ^ a₂ + r₂ * (1/10) * (b * m ^ a₂)) M := by
  have hm1 : (1 : ℚ) ≤ m := le_trans (by norm_num) hm
  have hm0 : (0 : ℚ) ≤ m := le_trans (by norm_num) hm1
  have hE₁0 : 0 ≤ b * m ^ a₁ := mul_nonneg hb0 (pow_nonneg hm0 _)
  have hE₂0 : 0 ≤ b * m ^ a₂ := mul_nonneg hb0 (pow_nonneg hm0 _)
  have hpow : m ^ (a₁ + 1) ≤ m ^ a₂ := pow_le_pow_right₀ hm1 (by omega)
  refine min_le_min ?_ (le_refl M)
  calc b * m ^ a₁ + r₁ * (1/10) * (b * m ^ a₁)
      = (b * m ^ a₁) * (1 + r₁ * (1/10)) := by ring
    _ ≤ (b * m ^ a₁) * (11/10) :=
        mul_le_mul_of_nonneg_left (by linarith) hE₁0
    _ ≤ (b * m ^ a₁) * m := mul_le_mul_of_nonneg_left hm hE₁0
    _ = b * m ^ (a₁ + 1) := by rw [pow_succ]; ring
    _ ≤ b * m ^ a₂ := mul_le_mul_of_nonneg_left hpow hb0
    _ ≤ b * m ^ a₂ + r₂ * (1/10) * (b * m ^ a₂) :=
        le_add_of_nonneg_right (mul_nonneg (mul_nonneg hr₂0 (by norm_num)) hE₂0)

/-- C6 amended: `calculateDelay` never exceeds `maxDelay`
(unconditionally), and is non-decreasing in the attempt for any jitter
draws within the ≤10% bound *provided* `baseDelay ≥ 0` and
`backoffMultiplier ≥ 1.1` (so the exponential growth dominates the
jitter bound); below 1.1 adversarial jitter can make the delay
decrease. -/
theorem calculateDelay_spec :
    ∀ (cfg : RetryOptions) (e : ApiError),
      (∀ (attempt : ℕ) (rand : ℚ), calculateDelay attempt cfg e rand ≤ cfg.maxDelay) ∧
      (0 ≤ cfg.baseDelay → 11/10 ≤ cfg.backoffMultiplier →
        ∀ (a₁ a₂ : ℕ) (r₁ r₂ : ℚ), a₁ < a₂ →
          0 ≤ r₁ → r₁ ≤ 1 → 0 ≤ r₂ → r₂ ≤ 1 →
          calculateDelay a₁ cfg e r₁ ≤ calculateDelay a₂ cfg e r₂) := by
  intro cfg e
  constructor
  · intro attempt rand
    exact min_le_right _ _
  · intro hb hm a₁ a₂ r₁ r₂ ha hr₁0 hr₁1 hr₂0 hr₂1
    cases hra : e.retryAfter with
    | none =>
      simp only [calculateDelay, hra]
      exact delayMono_aux cfg.baseDelay cfg.backoffMultiplier cfg.maxDelay hb hm
        a₁ a₂ r₁ r₂ ha hr₁1 hr₂0
    | some ra =>
      simp only [calculateDelay, hra]
      exact delayMono_aux (max (ra * 1000) cfg.baseDelay) cfg.backoffMultiplier
        cfg.maxDelay (le_trans hb (le_max_right _ _)) hm a₁ a₂ r₁ r₂ ha hr₁1 hr₂0

/-- Witness for C6's amended theorem: at the default options
(multiplier 2 ≥ 1.1) the delay of attempt 0 is below that of
attempt 1. -/
theorem calculateDelay_spec_witness :
    calculateDelay 0 defaultRetryOptions ⟨none, none, none, none, none⟩ (1/2) ≤
      calculateDelay 1 defaultRetryOptions ⟨none, none, none, none, none⟩ (1/2) :=
  (calculateDelay_spec defaultRetryOptions ⟨none, none, none, none, none⟩).2
    (by norm_num [defaultRetryOptions]) (by norm_num [defaultRetryOptions])
    0 1 (1/2) (1/2) (by omega) (by norm_num) (by norm_num) (by norm_num) (by norm_num)

theorem addNewRoutines_exists (id : String) :
    ∀ (rs : List Routine) (acc : List RoutinePriority),
      (∃ p ∈ addNewRoutines acc rs, p.routineId = id) ↔
        (∃ p ∈ acc, p.routineId = id) ∨ id ∈ rs.map Routine.id
  | [], acc => by simp [addNewRoutines]
  | r :: rest, acc => by
    have hstep : addNewRoutines acc (r :: rest) =
        addNewRoutines
          (if acc.any (fun p => p.routineId == r.id) then acc
           else acc ++ [defaultEntry r.id]) rest := rfl
    rw [hstep, addNewRoutines_exists id rest]
    simp only [List.map_cons, List.mem_cons]
    by_cases h : acc.any (fun p => p.routineId == r.id)
    · obtain ⟨q, hq, hqid⟩ := List.any_eq_true.mp h
      have hqid' : q.routineId = r.id := eq_of_beq hqid
      simp only [h, ite_true]
      constructor
      · rintro (hacc | hmem)
        · exact Or.inl hacc
        · exact Or.inr (Or.inr hmem)
      · rintro (hacc | heq | hmem)
        · exact Or.inl hacc
        · exact Or.inl ⟨q, hq, by rw [hqid', heq]⟩
        · exact Or.inr hmem
    · rw [Bool.not_eq_true] at h
      simp only [h, Bool.false_eq_true, ite_false]
      constructor
      · rintro (⟨p, hp, hpid⟩ | hmem)
        · rcases List.mem_append.mp hp with hpa | hpd
          · exact Or.inl ⟨p, hpa, hpid⟩
          · have hpd' : p = defaultEntry r.id := List.mem_singleton.mp hpd
            have hid : id = r.id := by rw [← hpid, hpd']; rfl
            exact Or.inr (Or.inl hid)
        · exact Or.inr (Or.inr hmem)
      · rintro (⟨p, hp, hpid⟩ | heq | hmem)
        · exact Or.inl ⟨p, List.mem_append.mpr (Or.inl hp), hpid⟩
        · exact Or.inl ⟨defaultEntry r.id,
            List.mem_append.mpr (Or.inr (List.mem_singleton.mpr rfl)), heq.symm⟩
        · exact Or.inr hmem

theorem addNewRoutines_eq_self :
    ∀ (rs : List Routine) (acc : List RoutinePriority),
      (∀ r ∈ rs, acc.any (fun p => p.routineId == r.id) = true) →
      addNewRoutines acc rs = acc
  | [], _ => fun _ => rfl
  | r :: rest, acc => by
    intro h
    have hr := h r (List.mem_cons_self _ _)
    show addNewRoutines
        (if acc.any (fun p => p.routineId == r.id) then acc
         else acc ++ [defaultEntry r.id]) rest = acc
    rw [hr]
    exact addNewRoutines_eq_self rest acc
      (fun r' hr' => h r' (List.mem_cons_of_mem _ hr'))

theorem addNewRoutines_nodup :
    ∀ (rs : List Routine) (acc : List RoutinePriority),
      (acc.map (fun p => p.routineId)).Nodup →
      ((addNewRoutines acc rs).map (fun p => p.routineId)).Nodup
  | [], _ => fun h => h
  | r :: rest, acc => by
    intro h
    show ((addNewRoutines
        (if acc.any (fun p => p.routineId == r.id) then acc
         else acc ++ [defaultEntry r.id]) rest).map _).Nodup
    by_cases hc : acc.any (fun p => p.routineId == r.id)
    · simp only [hc, ite_true]; exact addNewRoutines_nodup rest acc h
    · rw [Bool.not_eq_true] at hc
      simp only [hc, Bool.false_eq_true, ite_false]
      apply addNewRoutines_nodup rest
      rw [List.map_append, List.nodup_append]
      refine ⟨h, List.nodup_singleton _, ?_⟩
      intro a ha hb
      have hid : a = r.id := by
        simp only [List.map_cons, List.map_nil, List.mem_singleton, defaultEntry] at hb
        exact hb
      obtain ⟨p, hp, hpid⟩ := List.mem_map.mp ha
      have : acc.any (fun p => p.routineId == r.id) = true :=
        List.any_eq_true.mpr ⟨p, hp, by simp [hpid, hid]⟩
      rw [this] at hc
      exact Bool.true_eq_false.mp hc

theorem addNewRoutines_mem_orig :
    ∀ (rs : List Routine) (acc : List RoutinePriority),
      ∀ p ∈ addNewRoutines acc rs, p ∈ acc ∨ p = defaultEntry p.routineId
  | [], _ => by intro p hp; exact Or.inl hp
  | r :: rest, acc => by
    intro p hp
    rw [show addNewRoutines acc (r :: rest) =
        addNewRoutines
          (if acc.any (fun q => q.routineId == r.id) then acc
           else acc ++ [defaultEntry r.id]) rest from rfl] at hp
    by_cases hc : acc.any (fun q => q.routineId == r.id)
    · rw [hc] at hp
      exact addNewRoutines_mem_orig rest acc p hp
    · rw [Bool.not_eq_true] at hc
      rw [hc] at hp
      rcases addNewRoutines_mem_orig rest _ p hp with hmem | hdef
      · rcases List.mem_append.mp hmem with hmem | hmem
        · exact Or.inl hmem
        · right
          have hpd : p = defaultEntry r.id := List.mem_singleton.mp hmem
          rw [hpd]; rfl
      · exact Or.inr hdef

theorem updateRoutinePriorities_exists (rs : List Routine)
    (ps : List RoutinePriority) (id : String) :
    (∃ p ∈ updateRoutinePriorities rs ps, p.routineId = id) ↔
      id ∈ rs.map Routine.id := by
  constructor
  · rintro ⟨p, hp, hpid⟩
    have := List.mem_filter.mp hp
    have hcont := this.2
    rw [hpid] at hcont
    simpa using hcont
  · intro hid
    obtain ⟨p, hp, hpid⟩ := (addNewRoutines_exists id rs ps).mpr (Or.inr hid)
    refine ⟨p, List.mem_filter.mpr ⟨hp, ?_⟩, hpid⟩
    rw [hpid]
    simpa using hid

/-- C9: `updateRoutinePriorities` (reconcile) is idempotent; after a
call an entry exists exactly for the ids of the active set (with no
duplicates when the store had none), and an empty active set prunes all
entries without error. -/
theorem updateRoutinePriorities_spec :
    (∀ (rs : List Routine) (ps : List RoutinePriority),
      updateRoutinePriorities rs (updateRoutinePriorities rs ps) =
        updateRoutinePriorities rs ps) ∧
    (∀ (rs : List Routine) (ps : List RoutinePriority) (id : String),
      (∃ p ∈ updateRoutinePriorities rs ps, p.routineId = id) ↔
        id ∈ rs.map Routine.id) ∧
    (∀ (rs : List Routine) (ps : List RoutinePriority),
      (ps.map (fun p => p.routineId)).Nodup →
      ((updateRoutinePriorities rs ps).map (fun p => p.routineId)).Nodup) ∧
    (∀ (rs : List Routine) (ps : List RoutinePriority),
      ∀ p ∈ updateRoutinePriorities rs ps, p ∈ ps ∨ p = defaultEntry p.routineId) ∧
    (∀ ps : List RoutinePriority, updateRoutinePriorities [] ps = []) := by
  refine ⟨?_, updateRoutinePriorities_exists, ?_, ?_, ?_⟩
  · intro rs ps
    have hall : ∀ r ∈ rs,
        (updateRoutinePriorities rs ps).any (fun p => p.routineId == r.id) = true := by
      intro r hr
      obtain ⟨p, hp, hpid⟩ := (updateRoutinePriorities_exists rs ps r.id).mpr
        (List.mem_map_of_mem _ hr)
      exact List.any_eq_true.mpr ⟨p, hp, by simp [hpid]⟩
    show (addNewRoutines (updateRoutinePriorities rs ps) rs).filter _ =
      updateRoutinePriorities rs ps
    rw [addNewRoutines_eq_self rs _ hall]
    apply List.filter_eq_self.mpr
    intro p hp
    exact (List.mem_filter.mp hp).2
  · intro rs ps h
    have := addNewRoutines_nodup rs ps h
    exact List.Nodup.sublist (List.Sublist.map _ (List.filter_sublist _)) this
  · intro rs ps p hp
    exact addNewRoutines_mem_orig rs ps p (List.mem_filter.mp hp).1
  · intro ps
    apply List.filter_eq_nil_iff.mpr
    intro p _
    simp

/-- Witness for C9's theorem: reconciling the empty store against one
routine yields a duplicate-free entry list. -/
theorem updateRoutinePriorities_spec_witness :
    ((updateRoutinePriorities [⟨"a", "A"⟩] []).map (fun p => p.routineId)).Nodup :=
  updateRoutinePriorities_spec.2.2.1 [⟨"a", "A"⟩] [] (by simp)

theorem mem_of_getLast?_eq_some {α : Type} {l : List α} {a : α}
    (h : l.getLast? = some a) : a ∈ l := by
  have hne : l ≠ [] := by
    intro hnil
    rw [hnil] at h
    exact absurd h (by simp)
  rw [List.getLast?_eq_getLast_of_ne_nil hne, Option.some_inj] at h
  rw [← h]
  exact List.getLast_mem hne

theorem pickLoop_mem (rand : ℚ) :
    ∀ (l : List (Routine × ℚ)) (acc : ℚ) (r : Routine),
      pickLoop rand acc l = some r → r ∈ l.map Prod.fst
  | [], acc, r => by intro h; exact absurd h (by simp [pickLoop])
  | (q, w) :: rest, acc, r => by
    intro h
    simp only [pickLoop] at h
    by_cases hle : rand ≤ acc + w
    · rw [if_pos hle, Option.some_inj] at h
      simp only [List.map_cons, List.mem_cons]
      exact Or.inl h.symm
    · rw [if_neg hle] at h
      simp only [List.map_cons, List.mem_cons]
      exact Or.inr (pickLoop_mem rand rest (acc + w) r h)

theorem select_some_mem (cfg : GlobalSettings) (ps : List RoutinePriority)
    (t : ℤ) (rand : ℚ) (routines : List Routine) (r : Routine)
    (h : selectRoutineToExecute cfg ps t rand routines = some r) :
    r ∈ routines.filter (eligibleForExecution cfg ps t) := by
  simp only [selectRoutineToExecute] at h
  by_cases hav : (routines.filter (eligibleForExecution cfg ps t)).isEmpty
  · rw [if_pos hav] at h
    exact absurd h (by simp)
  · rw [if_neg hav] at h
    cases hpick : pickLoop rand 0
        ((routines.filter (eligibleForExecution cfg ps t)).map
          (fun q => (q, routineWeight ps t q))) with
    | some r' =>
      rw [hpick] at h
      rw [Option.some_inj] at h
      have hmem := pickLoop_mem rand _ 0 r' hpick
      rw [← h]
      simpa [List.map_map, Function.comp] using hmem
    | none =>
      rw [hpick] at h
      exact mem_of_getLast?_eq_some h

/-- C1: a routine whose priority entry was last executed within
`cooldownPeriod` seconds of the current time is never returned by
`selectRoutineToExecute`; a routine with no entry or no `lastExecuted`
passes the cooldown filter; and when the filter leaves no routine the
call returns `none` instead of failing. -/
theorem selectRoutine_cooldown_spec :
    ∀ (cfg : GlobalSettings) (ps : List RoutinePriority) (t : ℤ) (rand : ℚ)
      (routines : List Routine),
      (∀ r, selectRoutineToExecute cfg ps t rand routines = some r →
        ∀ p, findEntry ps r.id = some p →
        ∀ te, p.lastExecuted = some te → t - te > cfg.cooldownPeriod * 1000) ∧
      (∀ r, findEntry ps r.id = none → eligibleForExecution cfg ps t r = true) ∧
      (∀ r p, findEntry ps r.id = some p → p.lastExecuted = none →
        eligibleForExecution cfg ps t r = true) ∧
      (routines.filter (eligibleForExecution cfg ps t) = [] →
        selectRoutineToExecute cfg ps t rand routines = none) := by
  intro cfg ps t rand routines
  refine ⟨?_, ?_, ?_, ?_⟩
  · intro r h p hfind te hlast
    have hmem := select_some_mem cfg ps t rand routines r h
    have heli := (List.mem_filter.mp hmem).2
    simp only [eligibleForExecution, hfind, hlast] at heli
    exact of_decide_eq_true heli
  · intro r hfind
    simp [eligibleForExecution, hfind]
  · intro r p hfind hlast
    simp [eligibleForExecution, hfind, hlast]
  · intro hfil
    simp [selectRoutineToExecute, hfil]

/-- Witness for C1's theorem: with cooldown 300 s, a single routine last
executed 1 second ago is filtered out and the call returns `none`. -/
theorem selectRoutine_cooldown_spec_witness :
    selectRoutineToExecute ⟨3, 300, 60⟩
      [{ routineId := "a", priority := 5, weight := 1, lastExecuted := some 0
         executionCount := 1, successRate := 1 }] 1000 0 [⟨"a", "A"⟩] = none :=
  (selectRoutine_cooldown_spec ⟨3, 300, 60⟩
    [{ routineId := "a", priority := 5, weight := 1, lastExecuted := some 0
       executionCount := 1, successRate := 1 }] 1000 0 [⟨"a", "A"⟩]).2.2.2 (by rfl)

end Aireer
